import Mathlib

/-!
# Verification of `new_correction.py` (`analyze_climate_data_final_v3`)

A shallow embedding of the climate-report script.  The script walks a
directory tree, classifies each file line by presence of `[a-zA-Z]`
characters, counts maximal alphabetic runs per file, extracts numeric
tokens (regex `\b\d+\.?\d*\b`) from alphabetic lines, aggregates counts
per immediate subfolder basename, orders the result and serialises a CSV.

Modelling choices:
* a file content is a list of lines, each a `List Char`; a file whose
  read raises is modelled with content `none` (the `try`/`except` wraps
  the whole read, and all state mutations happen after reading finishes);
* the directory walk is a list of `WalkEntry` in `os.walk` order, each
  carrying the relative path (the root itself has `relPath = "."`), the
  basename, and the files of that directory;
* the two `defaultdict`s keyed by subfolder basename are modelled as
  insertion-ordered association lists with first-occurrence update,
  exactly the observable behaviour of Python 3.7+ dicts;
* Python `list.sort` (stable) is modelled by a stable insertion sort;
* characters are compared as Unicode code points, like Python `str`.
-/

namespace Climate

/-! ## The regex `\b` word test (Python word characters, ASCII range) -/

def isWordChar (c : Char) : Bool := c.isAlpha || c.isDigit || c == '_'

def isWordOpt : Option Char → Bool
  | none => false
  | some c => isWordChar c

/-! ## Matching `\b\d+\.?\d*\b` at one position

`matchNum prev s` attempts the pattern `\b\d+\.?\d*\b` at the start of
`s`, where `prev` is the character just before that position (`none` at
the start of the line).  It returns the matched token and the rest of
the string after the match.  The case analysis is the standard greedy
backtracking of the pattern:

* the leading `\b` plus `\d` force `prev` to be a non-word character and
  the head of `s` to be a digit; `\d+` then greedily takes the maximal
  digit run `ds`, and shortening `\d+` can never help because every
  boundary between two digits fails `\b`;
* if the rest `r` is empty, `\.?` and `\d*` match empty and the final
  `\b` holds after a digit: token `ds`;
* if `r` starts with a dot, `\.?` first tries to take it and `\d*`
  greedily takes the following digit run `es`:
  - `es` nonempty and followed by end or a non-word character: the final
    `\b` holds, token `ds.es`;
  - `es` nonempty but followed by a word character: `\d*` backtracks all
    the way to empty (digit-digit boundaries all fail) and `\b` holds
    between the dot and the first digit of `es`: token `ds.`;
  - `es` empty with a word character (letter or underscore) after the
    dot: `\b` holds between the dot and it: token `ds.`;
  - `es` empty with end or a non-word character after the dot: `\.?`
    backtracks to empty and `\b` holds between the last digit and the
    dot: token `ds`;
* if `r` starts with a non-word non-dot character the final `\b` holds:
  token `ds`; if it starts with a letter or underscore every
  backtracking alternative fails and there is no match here.

The behaviour was checked against CPython `re.findall` on all these
shapes (for example `a 5.x` gives `5.`, `5.67x` gives `5.`, `12.` gives
`12`, `0.0.0.0` gives `0.0`, `0.0`). -/

def matchNum (prev : Option Char) (s : List Char) : Option (List Char × List Char) :=
  if isWordOpt prev then none
  else
    let ds := s.takeWhile Char.isDigit
    if ds.isEmpty then none
    else
      match s.dropWhile Char.isDigit with
      | [] => some (ds, [])
      | '.' :: r1 =>
        let es := r1.takeWhile Char.isDigit
        if es.isEmpty then
          match r1 with
          | [] => some (ds, '.' :: r1)
          | c :: _ =>
            if isWordChar c then some (ds ++ ['.'], r1) else some (ds, '.' :: r1)
        else
          match r1.dropWhile Char.isDigit with
          | [] => some (ds ++ '.' :: es, [])
          | c :: r2 =>
            if isWordChar c then some (ds ++ ['.'], r1)
            else some (ds ++ '.' :: es, c :: r2)
      | c :: r1 =>
        if isWordChar c then none else some (ds, c :: r1)

/-! ## Matching `\b\d+(\.\d+)?\b` at one position

Same derivation for the pattern the specification quotes.  The optional
group needs a dot followed by at least one digit; inner backtracking of
its `\d+` never helps (digit-digit boundaries), so the group matches
exactly when `es` is nonempty and followed by end or a non-word
character, and otherwise the group is dropped and the final `\b` holds
between the last digit of `ds` and the dot. -/

def matchNumSpec (prev : Option Char) (s : List Char) : Option (List Char × List Char) :=
  if isWordOpt prev then none
  else
    let ds := s.takeWhile Char.isDigit
    if ds.isEmpty then none
    else
      match s.dropWhile Char.isDigit with
      | [] => some (ds, [])
      | '.' :: r1 =>
        let es := r1.takeWhile Char.isDigit
        if es.isEmpty then some (ds, '.' :: r1)
        else
          match r1.dropWhile Char.isDigit with
          | [] => some (ds ++ '.' :: es, [])
          | c :: r2 =>
            if isWordChar c then some (ds, '.' :: r1)
            else some (ds ++ '.' :: es, c :: r2)
      | c :: r1 =>
        if isWordChar c then none else some (ds, c :: r1)

/-! ## The `re.findall` scan

`scanTokens` scans left to right: at each position it attempts the
match; on success it emits the token and resumes right after it (the
next `\b` look-behind sees the last matched character), otherwise it
advances one character.  Both matchers consume at least one character on
success, so fuel `s.length` is enough; `scanAux` is structurally
recursive on the fuel so that concrete runs evaluate by `decide`. -/

def scanAux (m : Option Char → List Char → Option (List Char × List Char)) :
    Nat → Option Char → List Char → List (List Char)
  | 0, _, _ => []
  | _, _, [] => []
  | fuel + 1, prev, c :: s =>
    match m prev (c :: s) with
    | some (tok, rest) => tok :: scanAux m fuel (tok.getLastD c) rest
    | none => scanAux m fuel (some c) s

def scanTokens (m : Option Char → List Char → Option (List Char × List Char))
    (line : List Char) : List (List Char) :=
  scanAux m line.length none line

/-- `re.findall(r'\b\d+\.?\d*\b', line)` — the tokens the code collects. -/
def findNumbers (line : List Char) : List String :=
  (scanTokens matchNum line).map List.asString

/-- The tokens of the pattern `\b\d+(\.\d+)?\b` that the specification
quotes for the `Following day` field; used only to compare the spec
wording with the code behaviour. -/
def specPatternTokens (line : List Char) : List String :=
  (scanTokens matchNumSpec line).map List.asString

/-! ## Per-line and per-file analysis -/

/-- `re.search` of the class `[a-zA-Z]`: the line has at least one letter. -/
def hasAlpha (line : List Char) : Bool := line.any Char.isAlpha

/-- Number of maximal `[a-zA-Z]+` runs, the length of the `re.findall`
result for that pattern.  The flag records whether the previous
character was a letter. -/
def countAlphaAux : Bool → List Char → Nat
  | _, [] => 0
  | inRun, c :: s =>
    if c.isAlpha then (if inRun then 0 else 1) + countAlphaAux true s
    else countAlphaAux false s

def countAlpha (line : List Char) : Nat := countAlphaAux false line

/-- Accumulator of the per-file loop: `alphabetical_units_count_file`
and `numerical_data_from_alpha_lines`. -/
structure FileScan where
  count : Nat
  nums : List String
  deriving DecidableEq

/-- One iteration of `for line in f`: on a line with a letter, extend the
collected numbers (the code guards the `extend` by non-emptiness) and add
the alphabetic-run count. -/
def scanLine (acc : FileScan) (line : List Char) : FileScan :=
  if hasAlpha line then
    let ns := findNumbers line
    { count := acc.count + countAlpha line,
      nums := if ns.isEmpty then acc.nums else acc.nums ++ ns }
  else acc

def scanFile (lines : List (List Char)) : FileScan :=
  lines.foldl scanLine ⟨0, []⟩

/-- `"; ".join(numerical_data_from_alpha_lines) if numerical_data_from_alpha_lines else ""`. -/
def fileFollowingDay (lines : List (List Char)) : String :=
  let r := scanFile lines
  if r.nums.isEmpty then "" else String.intercalate "; " r.nums

/-! ## The directory walk

`os.walk` yields the root first (its `os.path.relpath` from the root is
`"."`, and the code skips it with `continue`), then every descendant
directory.  A `WalkEntry` records the relative path, the basename used
as aggregation key, and the files of that directory; a file whose
open/read raises is modelled with `content = none`. -/

structure FileEntry where
  name : String
  content : Option (List (List Char))
  deriving DecidableEq

structure WalkEntry where
  relPath : String
  baseName : String
  files : List FileEntry
  deriving DecidableEq

/-- The per-file dictionary appended to `subfolder_data[name]`. -/
structure FileRec where
  file : String
  count : Nat
  followingDay : String
  deriving DecidableEq

/-- The two aggregation dictionaries, as insertion-ordered association
lists (the observable behaviour of Python 3.7+ dicts). -/
structure St where
  totals : List (String × Nat)
  data : List (String × List FileRec)
  deriving DecidableEq

/-- Lines 35-36: `if name not in subfolder_totals: subfolder_totals[name] = 0`. -/
def initTotal (k : String) : List (String × Nat) → List (String × Nat)
  | [] => [(k, 0)]
  | p :: t => if p.1 = k then p :: t else p :: initTotal k t

/-- `subfolder_totals[k] += n` on a `defaultdict(int)`. -/
def bumpTotal (k : String) (n : Nat) : List (String × Nat) → List (String × Nat)
  | [] => [(k, n)]
  | p :: t => if p.1 = k then (p.1, p.2 + n) :: t else p :: bumpTotal k n t

/-- `subfolder_data[k].append(r)` on a `defaultdict(list)`. -/
def appendRec (k : String) (r : FileRec) :
    List (String × List FileRec) → List (String × List FileRec)
  | [] => [(k, [r])]
  | p :: t => if p.1 = k then (p.1, p.2 ++ [r]) :: t else p :: appendRec k r t

/-- Lines 38-72: process one file of the current subfolder.  A failed
read (`content = none`) hits the `except: pass` before any state
mutation; a readable file is scanned, and only when its alphabetic count
is positive are the record appended and the total bumped. -/
def stepFile (key : String) (st : St) (fe : FileEntry) : St :=
  match fe.content with
  | none => st
  | some lines =>
    let r := scanFile lines
    let fd := if r.nums.isEmpty then "" else String.intercalate "; " r.nums
    if 0 < r.count then
      { totals := bumpTotal key r.count st.totals,
        data := appendRec key ⟨fe.name, r.count, fd⟩ st.data }
    else st

/-- Lines 22-72: one `os.walk` iteration.  The root (`relPath = "."`) is
skipped entirely; otherwise the basename is initialised in the totals
dictionary and every file is processed. -/
def stepEntry (st : St) (e : WalkEntry) : St :=
  if e.relPath = "." then st
  else
    e.files.foldl (stepFile e.baseName) { st with totals := initTotal e.baseName st.totals }

def runWalk (w : List WalkEntry) : St := w.foldl stepEntry ⟨[], []⟩

/-! ## Ordering and report rows -/

/-- `subfolder_data.get(name, [])` — first-occurrence lookup, `[]` when
the key is absent. -/
def lookupData (k : String) : List (String × List FileRec) → List FileRec
  | [] => []
  | p :: d => if p.1 = k then p.2 else lookupData k d

/-- Stable insertion: `x` goes before the first element it is `le` to,
hence before elements with an equal key — together with `sortBy` this is
the unique stable ascending sort, the behaviour of Python `list.sort`. -/
def insBy (le : α → α → Bool) (x : α) : List α → List α
  | [] => [x]
  | y :: ys => if le x y then x :: y :: ys else y :: insBy le x ys

def sortBy (le : α → α → Bool) : List α → List α
  | [] => []
  | x :: xs => insBy le x (sortBy le xs)

/-- Code-point lexicographic order on character lists: Python string
comparison.  (The builtin `String.lt` of Lean is the same order, but
the iterator-based decision procedure does not reduce in the kernel;
the bridge is proved below in `fileLe_iff_le`.) -/
def lexLe : List Char → List Char → Bool
  | [], _ => true
  | _ :: _, [] => false
  | a :: as, b :: bs => if a = b then lexLe as bs else decide (a < b)

def fileLe (a b : FileRec) : Bool := lexLe a.file.data b.file.data

/-- Line 105: `files_in_subfolder.sort` with the File name as key. -/
def sortFiles : List FileRec → List FileRec := sortBy fileLe

def totalLe (a b : String × Nat) : Bool := decide (a.2 ≤ b.2)

/-- Line 88: `non_zero_count_subfolders.sort(key=lambda item: item[1])`. -/
def sortTotals : List (String × Nat) → List (String × Nat) := sortBy totalLe

/-- Lines 77-91: partition the totals dictionary items into the
zero-count and non-zero-count groups (both in encounter order), sort
the second by total, and put the zero group first. -/
def orderSubfolders (t : List (String × Nat)) : List (String × Nat) :=
  t.filter (fun p => p.2 == 0) ++ sortTotals (t.filter (fun p => p.2 != 0))

/-- One CSV data row; all five cells as they reach the writer. -/
structure Row where
  subName : String
  subTotal : String
  fileName : String
  fileCount : String
  followingDay : String
  deriving DecidableEq

def subfolderRow (p : String × Nat) : Row := ⟨p.1, toString p.2, "", "", ""⟩

def fileRow (r : FileRec) : Row := ⟨"", "", r.file, toString r.count, r.followingDay⟩

/-- Lines 93-115: for each ordered subfolder one header-style row, then
its files sorted by name. -/
def buildRows (st : St) : List Row :=
  (orderSubfolders st.totals).flatMap fun p =>
    subfolderRow p :: (sortFiles (lookupData p.1 st.data)).map fileRow

/-! ## CSV serialisation (`csv.DictWriter`, default dialect) -/

def escQuotes : List Char → List Char
  | [] => []
  | c :: s => if c = '"' then '"' :: '"' :: escQuotes s else c :: escQuotes s

/-- QUOTE_MINIMAL: quote a field containing the delimiter, the quote
character, or a line-terminator character. -/
def needsQuote (s : String) : Bool :=
  s.data.any fun c => c == ',' || c == '"' || c == '\n' || c == '\r'

def csvField (s : String) : String :=
  if needsQuote s then "\"" ++ (escQuotes s.data).asString ++ "\"" else s

def csvLine (cells : List String) : String :=
  String.intercalate "," (cells.map csvField) ++ "\r\n"

def headerCells : List String :=
  ["Subfolder Name", "Subfolder Total Alphabetical Count", "File Name",
   "File Alphabetical Count", "Following day"]

def rowCells (r : Row) : List String :=
  [r.subName, r.subTotal, r.fileName, r.fileCount, r.followingDay]

def csvOutput (rows : List Row) : String :=
  String.join ((headerCells :: rows.map rowCells).map csvLine)

/-- The whole observable run: walk, aggregate, order, serialise. -/
def analyzeCSV (w : List WalkEntry) : String :=
  csvOutput (buildRows (runWalk w))

/-! ## Definitions used only by the verification -/

/-- First-occurrence lookup in the totals dictionary. -/
def lookupTotal (k : String) : List (String × Nat) → Option Nat
  | [] => none
  | p :: t => if p.1 = k then some p.2 else lookupTotal k t

/-- Tokens of the pattern the spec quotes, collected over the alphabetic
lines of a file, joined as the spec describes the `Following day` field. -/
def specFollowingDay (lines : List (List Char)) : String :=
  String.intercalate "; " ((lines.filter hasAlpha).flatMap specPatternTokens)

/-- Invariant: for every key, the total equals the sum of the counts of
the recorded files (per-key form, first occurrence on both sides). -/
def Aligned (st : St) : Prop :=
  ∀ k : String,
    (lookupTotal k st.totals).getD 0 = ((lookupData k st.data).map FileRec.count).sum

/-- Invariant: the totals dictionary has pairwise distinct keys. -/
def KeysNodup (st : St) : Prop := (st.totals.map Prod.fst).Nodup

/-- Invariant: every recorded file has a positive alphabetic count. -/
def RecsPos (st : St) : Prop := ∀ p ∈ st.data, ∀ r ∈ p.2, 1 ≤ r.count

def GoodSt (st : St) : Prop := Aligned st ∧ KeysNodup st ∧ RecsPos st

/-- The directory tree of the spec example for C2: a root containing one
subfolder `A` with one file `x.txt`. -/
def exampleWalk : List WalkEntry :=
  [⟨".", "climate data", []⟩,
   ⟨"A", "A", [⟨"x.txt", some ["Temp 5 and 6 rising".data, "42".data]⟩]⟩]

/-! ## The per-file loop collects exactly the numbers of alphabetic lines -/

theorem foldl_scanLine_nums :
    ∀ (lines : List (List Char)) (acc : FileScan),
      (lines.foldl scanLine acc).nums
        = acc.nums ++ (lines.filter hasAlpha).flatMap findNumbers
  | [], acc => by simp
  | l :: ls, acc => by
    rw [List.foldl_cons, foldl_scanLine_nums ls]
    cases h : hasAlpha l
    · simp [scanLine, h]
    · have hnums : (scanLine acc l).nums = acc.nums ++ findNumbers l := by
        cases he : (findNumbers l).isEmpty
        · simp [scanLine, h, he]
        · simp [scanLine, h, List.isEmpty_iff.mp he]
      rw [hnums]
      simp [h, List.append_assoc]

theorem stepFile_none (key : String) (st : St) (name : String) :
    stepFile key st ⟨name, none⟩ = st := rfl

theorem stepFile_zeroCount (key : String) (st : St) (name : String)
    (lines : List (List Char)) (h : (scanFile lines).count = 0) :
    stepFile key st ⟨name, some lines⟩ = st := by
  simp [stepFile, h]

theorem stepEntry_root (st : St) (e : WalkEntry) (h : e.relPath = ".") :
    stepEntry st e = st := by
  simp [stepEntry, h]

theorem runWalk_append (w₁ w₂ : List WalkEntry) :
    runWalk (w₁ ++ w₂) = w₂.foldl stepEntry (runWalk w₁) := by
  simp [runWalk, List.foldl_append]

theorem stepEntry_skipFile (st : St) (rp bn : String) (pre post : List FileEntry)
    (f : FileEntry) (hf : ∀ s : St, stepFile bn s f = s) :
    stepEntry st ⟨rp, bn, pre ++ f :: post⟩ = stepEntry st ⟨rp, bn, pre ++ post⟩ := by
  by_cases h : rp = "."
  · simp [stepEntry, h]
  · simp only [stepEntry, h, if_false]
    rw [List.foldl_append, List.foldl_cons, hf, ← List.foldl_append]

theorem runWalk_skipFile (w₁ w₂ : List WalkEntry) (rp bn : String)
    (pre post : List FileEntry) (f : FileEntry)
    (hf : ∀ (k : String) (s : St), stepFile k s f = s) :
    runWalk (w₁ ++ ⟨rp, bn, pre ++ f :: post⟩ :: w₂)
      = runWalk (w₁ ++ ⟨rp, bn, pre ++ post⟩ :: w₂) := by
  rw [runWalk_append, runWalk_append, List.foldl_cons, List.foldl_cons,
    stepEntry_skipFile _ _ _ _ _ _ (hf bn)]

/-! ## Claim theorems (first group) -/

/-- C1, amended.  For every file content, the stored `Following day`
field is exactly the numeric tokens of the pattern the code actually
uses, `\b\d+\.?\d*\b`, found on the alphabetic lines, in original order
of occurrence, joined by `"; "` (empty when there are none, since
`String.intercalate` of `[]` is `""`); and `stepFile` stores exactly
that field in the record of the file.  (The pattern the spec claims,
`\d+(\.\d+)?`, disagrees with the code: see the counterexample.) -/
theorem followingDay_matches_code_pattern (lines : List (List Char)) :
    fileFollowingDay lines
        = String.intercalate "; " ((lines.filter hasAlpha).flatMap findNumbers)
      ∧ ∀ (key : String) (st : St) (name : String),
          stepFile key st ⟨name, some lines⟩
            = if 0 < (scanFile lines).count then
                { totals := bumpTotal key (scanFile lines).count st.totals,
                  data := appendRec key
                    ⟨name, (scanFile lines).count, fileFollowingDay lines⟩ st.data }
              else st := by
  constructor
  · have h := foldl_scanLine_nums lines ⟨0, []⟩
    simp only [List.nil_append] at h
    show (if (scanFile lines).nums.isEmpty then ""
        else String.intercalate "; " (scanFile lines).nums) = _
    rw [show (scanFile lines).nums = (lines.filter hasAlpha).flatMap findNumbers from h]
    cases he : ((lines.filter hasAlpha).flatMap findNumbers).isEmpty
    · simp [he]
    · simp [List.isEmpty_iff.mp he]
      rfl
  · intro key st name
    rfl

/-- C1, counterexample to the claim as stated: on the single line
`a 5.x` the code collects the token `5.` (its pattern `\b\d+\.?\d*\b`
matches a trailing dot before a word character), while the tokens of the
pattern the claim names, `\d+(\.\d+)?` with word boundaries, are just
`5`; so the field differs from the claimed join. -/
theorem followingDay_spec_pattern_counterexample :
    fileFollowingDay ["a 5.x".data] = "5."
      ∧ specFollowingDay ["a 5.x".data] = "5"
      ∧ fileFollowingDay ["a 5.x".data] ≠ specFollowingDay ["a 5.x".data] := by
  refine ⟨by decide, by decide, by decide⟩

/-- C2.  On a directory `A` containing the file `x.txt` with the lines
`Temp 5 and 6 rising` and `42`, the aggregation records for `x.txt` an
alphabetical count of 3 and a `Following day` field of `5; 6` (the `42`
on the letterless line contributes nothing), and the report lists the
file row with cells `3` and `5; 6`. -/
theorem example_directory_report :
    runWalk exampleWalk = ⟨[("A", 3)], [("A", [⟨"x.txt", 3, "5; 6"⟩])]⟩
      ∧ buildRows (runWalk exampleWalk)
        = [⟨"A", "3", "", "", ""⟩, ⟨"", "", "x.txt", "3", "5; 6"⟩] := by
  refine ⟨by decide, by decide⟩

/-- C6.  A file none of whose lines contains a letter (alphabetic count
0) leaves the aggregation state exactly unchanged wherever it occurs in
the walk: it appears in no record, adds nothing to any total, and the
emitted CSV is the same as if the file were absent. -/
theorem zero_alpha_file_contributes_nothing (w₁ w₂ : List WalkEntry)
    (rp bn name : String) (pre post : List FileEntry) (lines : List (List Char))
    (h : (scanFile lines).count = 0) :
    runWalk (w₁ ++ ⟨rp, bn, pre ++ ⟨name, some lines⟩ :: post⟩ :: w₂)
        = runWalk (w₁ ++ ⟨rp, bn, pre ++ post⟩ :: w₂)
      ∧ analyzeCSV (w₁ ++ ⟨rp, bn, pre ++ ⟨name, some lines⟩ :: post⟩ :: w₂)
        = analyzeCSV (w₁ ++ ⟨rp, bn, pre ++ post⟩ :: w₂) := by
  have hw := runWalk_skipFile w₁ w₂ rp bn pre post ⟨name, some lines⟩
    (fun k s => stepFile_zeroCount k s name lines h)
  exact ⟨hw, by simp [analyzeCSV, hw]⟩

theorem zero_alpha_file_contributes_nothing_witness :
    (scanFile ["42".data]).count = 0
      ∧ runWalk [⟨"B", "B", [⟨"n.txt", some ["42".data]⟩, ⟨"m.txt", some ["hi 7".data]⟩]⟩]
        = runWalk [⟨"B", "B", [⟨"m.txt", some ["hi 7".data]⟩]⟩] :=
  ⟨by decide,
    (zero_alpha_file_contributes_nothing [] [] "B" "B" "n.txt" []
      [⟨"m.txt", some ["hi 7".data]⟩] ["42".data] (by decide)).1⟩

/-- C7.  A file whose open/read raises (modelled `content = none`, since
the `except: pass` is reached before any state mutation) is skipped with
no partial effect — the per-file step is the identity on the state — and
the walk continues: the result of the run, wherever the file occurs,
equals the result without it. -/
theorem unreadable_file_skipped (w₁ w₂ : List WalkEntry) (rp bn name : String)
    (pre post : List FileEntry) :
    (∀ (k : String) (s : St), stepFile k s ⟨name, none⟩ = s)
      ∧ runWalk (w₁ ++ ⟨rp, bn, pre ++ ⟨name, none⟩ :: post⟩ :: w₂)
        = runWalk (w₁ ++ ⟨rp, bn, pre ++ post⟩ :: w₂)
      ∧ analyzeCSV (w₁ ++ ⟨rp, bn, pre ++ ⟨name, none⟩ :: post⟩ :: w₂)
        = analyzeCSV (w₁ ++ ⟨rp, bn, pre ++ post⟩ :: w₂) := by
  have hw := runWalk_skipFile w₁ w₂ rp bn pre post ⟨name, none⟩ (fun k s => rfl)
  exact ⟨fun k s => rfl, hw, by simp [analyzeCSV, hw]⟩

/-- C8.  The run is a pure function of the walk: with the same directory
tree and walk order, the produced CSV text is identical byte for byte
(the embedding has no other input: dictionary iteration order is the
modelled insertion order, sorting is deterministic, serialisation is a
function of the rows). -/
theorem deterministic_csv (w₁ w₂ : List WalkEntry) (h : w₁ = w₂) :
    analyzeCSV w₁ = analyzeCSV w₂ := by rw [h]

theorem deterministic_csv_witness :
    [(⟨"A", "A", [⟨"x.txt", some ["a 1".data]⟩]⟩ : WalkEntry)]
        = [(⟨"A", "A", [⟨"x.txt", some ["a 1".data]⟩]⟩ : WalkEntry)]
      ∧ analyzeCSV [⟨"A", "A", [⟨"x.txt", some ["a 1".data]⟩]⟩]
        = analyzeCSV [⟨"A", "A", [⟨"x.txt", some ["a 1".data]⟩]⟩] :=
  ⟨rfl, deterministic_csv _ _ rfl⟩

/-- C9.  The walk entry whose relative path is `.` — the root directory
itself — is skipped by the `continue` before its file loop, so files
directly in the root are never scanned: the entry is the identity on the
state and removing it entirely changes nothing, whatever its files. -/
theorem root_files_never_scanned (w₁ w₂ : List WalkEntry) (e : WalkEntry)
    (h : e.relPath = ".") :
    (∀ st : St, stepEntry st e = st)
      ∧ runWalk (w₁ ++ e :: w₂) = runWalk (w₁ ++ w₂)
      ∧ analyzeCSV (w₁ ++ e :: w₂) = analyzeCSV (w₁ ++ w₂) := by
  have hid : ∀ st : St, stepEntry st e = st := fun st => stepEntry_root st e h
  have hw : runWalk (w₁ ++ e :: w₂) = runWalk (w₁ ++ w₂) := by
    rw [runWalk_append, runWalk_append, List.foldl_cons, hid]
  exact ⟨hid, hw, by simp [analyzeCSV, hw]⟩

/-! ## The stable insertion sort -/

theorem mem_insBy {α : Type _} (le : α → α → Bool) (x : α) :
    ∀ (l : List α) (y : α), y ∈ insBy le x l ↔ y = x ∨ y ∈ l
  | [], y => by simp [insBy]
  | z :: zs, y => by
    by_cases h : le x z = true
    · simp [insBy, h]
    · have hstep : insBy le x (z :: zs) = z :: insBy le x zs := by
        simp [insBy, h]
      rw [hstep, List.mem_cons, mem_insBy le x zs y, List.mem_cons]
      tauto

theorem pairwise_insBy {α : Type _} (le : α → α → Bool)
    (htot : ∀ a b, le a b = false → le b a = true)
    (htrans : ∀ a b c, le a b = true → le b c = true → le a c = true) (x : α) :
    ∀ l : List α, l.Pairwise (fun a b => le a b = true) →
      (insBy le x l).Pairwise (fun a b => le a b = true)
  | [], _ => by simp [insBy]
  | y :: ys, hp => by
    rw [List.pairwise_cons] at hp
    obtain ⟨hy, hys⟩ := hp
    by_cases h : le x y = true
    · simp only [insBy, h, if_true]
      refine List.Pairwise.cons ?_ (List.Pairwise.cons hy hys)
      intro z hz
      rcases List.mem_cons.mp hz with rfl | hz'
      · exact h
      · exact htrans x y z h (hy z hz')
    · simp only [insBy, h, if_false]
      refine List.Pairwise.cons ?_ (pairwise_insBy le htot htrans x ys hys)
      intro z hz
      rcases (mem_insBy le x ys z).mp hz with rfl | hz'
      · exact htot z y (by simpa using h)
      · exact hy z hz'

theorem pairwise_sortBy {α : Type _} (le : α → α → Bool)
    (htot : ∀ a b, le a b = false → le b a = true)
    (htrans : ∀ a b c, le a b = true → le b c = true → le a c = true) :
    ∀ l : List α, (sortBy le l).Pairwise (fun a b => le a b = true)
  | [] => by simp [sortBy]
  | x :: xs => pairwise_insBy le htot htrans x _ (pairwise_sortBy le htot htrans xs)

theorem mem_sortBy {α : Type _} (le : α → α → Bool) :
    ∀ (l : List α) (y : α), y ∈ sortBy le l ↔ y ∈ l
  | [], y => Iff.rfl
  | x :: xs, y => by
    simp [sortBy, mem_insBy, mem_sortBy le xs]

/-- Stability of the insertion: under a predicate that forces `le`
between any two of its members, filtering commutes with insertion. -/
theorem filter_insBy {α : Type _} (le : α → α → Bool) (P : α → Bool)
    (hP : ∀ a b, P a = true → P b = true → le a b = true) (x : α) :
    ∀ l : List α, (insBy le x l).filter P
      = if P x then x :: l.filter P else l.filter P
  | [] => by by_cases hx : P x = true <;> simp [insBy, List.filter, hx]
  | y :: ys => by
    by_cases h : le x y = true
    · simp [insBy, h, List.filter_cons]
    · have ih := filter_insBy le P hP x ys
      by_cases hx : P x = true <;> by_cases hy : P y = true
      · exact absurd (hP x y hx hy) h
      · simp [insBy, h, List.filter_cons, hx, hy, ih]
      · simp [insBy, h, List.filter_cons, hx, hy, ih]
      · simp [insBy, h, List.filter_cons, hx, hy, ih]

/-- Stability of the sort: the members selected by such a predicate keep
their original relative order. -/
theorem filter_sortBy {α : Type _} (le : α → α → Bool) (P : α → Bool)
    (hP : ∀ a b, P a = true → P b = true → le a b = true) :
    ∀ l : List α, (sortBy le l).filter P = l.filter P
  | [] => rfl
  | x :: xs => by
    show ((insBy le x (sortBy le xs)).filter P) = _
    rw [filter_insBy le P hP, filter_sortBy le P hP xs, List.filter_cons]

/-! ## The two comparison relations -/

theorem totalLe_total (a b : String × Nat) (h : totalLe a b = false) :
    totalLe b a = true := by
  simp [totalLe] at *
  omega

theorem totalLe_trans (a b c : String × Nat) (h₁ : totalLe a b = true)
    (h₂ : totalLe b c = true) : totalLe a c = true := by
  simp [totalLe] at *
  omega

theorem lexLe_total : ∀ a b : List Char, lexLe a b = false → lexLe b a = true
  | [], b => by simp [lexLe]
  | a :: as, [] => by simp [lexLe]
  | x :: xs, y :: ys => by
    by_cases hxy : x = y
    · subst hxy
      simp only [lexLe, if_pos rfl]
      exact lexLe_total xs ys
    · simp only [lexLe, if_neg hxy, if_neg (Ne.symm hxy)]
      intro h
      have hnlt : ¬ x < y := by simpa using h
      exact decide_eq_true (lt_of_le_of_ne (not_lt.mp hnlt) (Ne.symm hxy))

theorem lexLe_trans : ∀ a b c : List Char,
    lexLe a b = true → lexLe b c = true → lexLe a c = true
  | [], _, _ => by simp [lexLe]
  | x :: xs, [], c => by simp [lexLe]
  | x :: xs, y :: ys, [] => by simp [lexLe]
  | x :: xs, y :: ys, z :: zs => by
    by_cases h1 : x = y <;> by_cases h2 : y = z
    · subst h1; subst h2
      simp only [lexLe, if_pos rfl]
      exact lexLe_trans xs ys zs
    · subst h1
      simp only [lexLe, if_pos rfl, if_neg h2]
      intro _ h
      exact h
    · subst h2
      simp only [lexLe, if_neg h1]
      intro h _
      exact h
    · simp only [lexLe, if_neg h1, if_neg h2]
      intro ha hb
      have hxy : x < y := by simpa using ha
      have hyz : y < z := by simpa using hb
      have hxz : x < z := lt_trans hxy hyz
      rw [if_neg (ne_of_lt hxz)]
      exact decide_eq_true hxz

theorem fileLe_total (a b : FileRec) (h : fileLe a b = false) : fileLe b a = true :=
  lexLe_total _ _ h

theorem fileLe_trans (a b c : FileRec) (h₁ : fileLe a b = true)
    (h₂ : fileLe b c = true) : fileLe a c = true :=
  lexLe_trans _ _ _ h₁ h₂

/-- `lexLe` decides the negation of the lexicographic strict order the
other way round, hence the standard `≤` on strings. -/
theorem lexLe_iff_not_lex : ∀ a b : List Char,
    lexLe a b = true ↔ ¬ List.Lex (· < ·) b a
  | [], b => iff_of_true rfl (List.Lex.not_nil_right _ b)
  | x :: xs, [] => iff_of_false (by simp [lexLe]) (fun h => h List.Lex.nil)
  | x :: xs, y :: ys => by
    by_cases hxy : x = y
    · subst hxy
      have hstep : lexLe (x :: xs) (x :: ys) = lexLe xs ys := by simp [lexLe]
      rw [hstep, lexLe_iff_not_lex xs ys]
      exact (not_congr List.Lex.cons_iff).symm
    · simp only [lexLe, if_neg hxy]
      rw [decide_eq_true_iff]
      constructor
      · intro hlt hlex
        cases hlex with
        | rel h => exact absurd hlt (lt_asymm h)
        | cons h => exact hxy rfl
      · intro hn
        by_contra hnlt
        exact hn (List.Lex.rel (lt_of_le_of_ne (not_lt.mp hnlt) (Ne.symm hxy)))

theorem fileLe_iff_le (a b : FileRec) : fileLe a b = true ↔ a.file ≤ b.file := by
  have h1 : fileLe a b = true ↔ ¬ List.Lex (· < ·) b.file.data a.file.data :=
    lexLe_iff_not_lex _ _
  have h2 : List.Lex (· < ·) b.file.data a.file.data ↔ b.file < a.file := by
    rw [String.lt_iff_toList_lt]
    exact Iff.rfl
  rw [h1, h2, not_lt]

/-! ## Dictionary lemmas and the aggregation invariant -/

theorem stepFile_some (key : String) (st : St) (name : String)
    (lines : List (List Char)) :
    stepFile key st ⟨name, some lines⟩
      = if 0 < (scanFile lines).count then
          { totals := bumpTotal key (scanFile lines).count st.totals,
            data := appendRec key
              ⟨name, (scanFile lines).count, fileFollowingDay lines⟩ st.data }
        else st := rfl

theorem lookupTotal_initTotal (k k' : String) :
    ∀ t : List (String × Nat), lookupTotal k (initTotal k' t)
      = if k = k' then some ((lookupTotal k t).getD 0) else lookupTotal k t
  | [] => by
    by_cases h : k = k'
    · simp [initTotal, lookupTotal, h]
    · simp [initTotal, lookupTotal, h, Ne.symm h]
  | p :: t => by
    by_cases hp : p.1 = k'
    · by_cases hk : k = k'
      · have hpk : p.1 = k := by rw [hp, hk]
        simp [initTotal, lookupTotal, hp, hpk, hk]
      · simp [initTotal, hp, hk]
    · by_cases hpk : p.1 = k
      · have hk : ¬ k = k' := fun h => hp (hpk.trans h)
        simp [initTotal, lookupTotal, hp, hpk, hk]
      · simp [initTotal, lookupTotal, hp, hpk, lookupTotal_initTotal k k' t]

theorem lookupTotal_bumpTotal (k k' : String) (n : Nat) :
    ∀ t : List (String × Nat), lookupTotal k (bumpTotal k' n t)
      = if k = k' then some ((lookupTotal k t).getD 0 + n) else lookupTotal k t
  | [] => by
    by_cases h : k = k'
    · simp [bumpTotal, lookupTotal, h]
    · simp [bumpTotal, lookupTotal, h, Ne.symm h]
  | p :: t => by
    by_cases hp : p.1 = k'
    · by_cases hk : k = k'
      · have hpk : p.1 = k := by rw [hp, hk]
        simp [bumpTotal, lookupTotal, hp, hpk, hk]
      · have hpk : ¬ p.1 = k := fun h => hk ((h.symm.trans hp))
        simp [bumpTotal, lookupTotal, hp, hpk, hk, Ne.symm hk]
    · by_cases hpk : p.1 = k
      · have hk : ¬ k = k' := fun h => hp (hpk.trans h)
        simp [bumpTotal, lookupTotal, hp, hpk, hk]
      · simp [bumpTotal, lookupTotal, hp, hpk, lookupTotal_bumpTotal k k' n t]

theorem lookupData_appendRec (k k' : String) (r : FileRec) :
    ∀ d : List (String × List FileRec), lookupData k (appendRec k' r d)
      = if k = k' then lookupData k d ++ [r] else lookupData k d
  | [] => by
    by_cases h : k = k'
    · simp [appendRec, lookupData, h]
    · simp [appendRec, lookupData, h, Ne.symm h]
  | p :: d => by
    by_cases hp : p.1 = k'
    · by_cases hk : k = k'
      · have hpk : p.1 = k := by rw [hp, hk]
        simp [appendRec, lookupData, hp, hpk, hk]
      · have hpk : ¬ p.1 = k := fun h => hk ((h.symm.trans hp))
        simp [appendRec, lookupData, hp, hpk, hk, Ne.symm hk]
    · by_cases hpk : p.1 = k
      · have hk : ¬ k = k' := fun h => hp (hpk.trans h)
        simp [appendRec, lookupData, hp, hpk, hk]
      · simp [appendRec, lookupData, hp, hpk, lookupData_appendRec k k' r d]

theorem map_fst_initTotal (k : String) :
    ∀ t : List (String × Nat), (initTotal k t).map Prod.fst
      = if k ∈ t.map Prod.fst then t.map Prod.fst else t.map Prod.fst ++ [k]
  | [] => by simp [initTotal]
  | p :: t => by
    by_cases hp : p.1 = k
    · simp [initTotal, hp]
    · by_cases hm : k ∈ t.map Prod.fst
      · simp [initTotal, hp, map_fst_initTotal k t, hm, Ne.symm hp]
      · simp [initTotal, hp, map_fst_initTotal k t, hm, Ne.symm hp]

theorem map_fst_bumpTotal (k : String) (n : Nat) :
    ∀ t : List (String × Nat), (bumpTotal k n t).map Prod.fst
      = if k ∈ t.map Prod.fst then t.map Prod.fst else t.map Prod.fst ++ [k]
  | [] => by simp [bumpTotal]
  | p :: t => by
    by_cases hp : p.1 = k
    · simp [bumpTotal, hp]
    · by_cases hm : k ∈ t.map Prod.fst
      · simp [bumpTotal, hp, map_fst_bumpTotal k n t, hm, Ne.symm hp]
      · simp [bumpTotal, hp, map_fst_bumpTotal k n t, hm, Ne.symm hp]

theorem keysNodup_initTotal (k : String) (t : List (String × Nat))
    (h : (t.map Prod.fst).Nodup) : ((initTotal k t).map Prod.fst).Nodup := by
  rw [map_fst_initTotal]
  by_cases hm : k ∈ t.map Prod.fst
  · simpa [hm] using h
  · simp [hm, List.nodup_append, h]

theorem keysNodup_bumpTotal (k : String) (n : Nat) (t : List (String × Nat))
    (h : (t.map Prod.fst).Nodup) : ((bumpTotal k n t).map Prod.fst).Nodup := by
  rw [map_fst_bumpTotal]
  by_cases hm : k ∈ t.map Prod.fst
  · simpa [hm] using h
  · simp [hm, List.nodup_append, h]

theorem lookupTotal_of_mem :
    ∀ (t : List (String × Nat)) (p : String × Nat),
      (t.map Prod.fst).Nodup → p ∈ t → lookupTotal p.1 t = some p.2
  | [], p, _, hp => absurd hp (List.not_mem_nil p)
  | q :: t, p, hnd, hp => by
    rw [List.map_cons, List.nodup_cons] at hnd
    rcases List.mem_cons.mp hp with rfl | hpt
    · simp [lookupTotal]
    · have hq : ¬ q.1 = p.1 :=
        fun he => hnd.1 (he ▸ List.mem_map.mpr ⟨p, hpt, rfl⟩)
      simp only [lookupTotal, if_neg hq]
      exact lookupTotal_of_mem t p hnd.2 hpt

theorem recsPos_appendRec (k : String) (r : FileRec) (hr : 1 ≤ r.count) :
    ∀ d : List (String × List FileRec),
      (∀ p ∈ d, ∀ x ∈ p.2, 1 ≤ x.count) →
      ∀ p ∈ appendRec k r d, ∀ x ∈ p.2, 1 ≤ x.count
  | [], _ => by
    intro p hp x hx
    simp only [appendRec] at hp
    have hp' := List.mem_singleton.mp hp
    subst hp'
    have hx' := List.mem_singleton.mp hx
    subst hx'
    exact hr
  | q :: d, h => by
    intro p hp x hx
    by_cases hq : q.1 = k
    · simp only [appendRec, if_pos hq] at hp
      rcases List.mem_cons.mp hp with rfl | hpd
      · rcases List.mem_append.mp hx with hx1 | hx2
        · exact h q (List.mem_cons_self q d) x hx1
        · have hx' := List.mem_singleton.mp hx2
          subst hx'
          exact hr
      · exact h p (List.mem_cons_of_mem q hpd) x hx
    · simp only [appendRec, if_neg hq] at hp
      rcases List.mem_cons.mp hp with rfl | hpd
      · exact h p (List.mem_cons_self p d) x hx
      · exact recsPos_appendRec k r hr d
          (fun p' hp' => h p' (List.mem_cons_of_mem q hp')) p hpd x hx

theorem goodSt_stepFile (key : String) (st : St) (fe : FileEntry)
    (h : GoodSt st) : GoodSt (stepFile key st fe) := by
  obtain ⟨ha, hn, hr⟩ := h
  match fe with
  | ⟨name, none⟩ => exact ⟨ha, hn, hr⟩
  | ⟨name, some lines⟩ =>
    rw [stepFile_some]
    by_cases hc : 0 < (scanFile lines).count
    · rw [if_pos hc]
      refine ⟨?_, ?_, ?_⟩
      · intro k
        show (lookupTotal k (bumpTotal key _ st.totals)).getD 0
            = ((lookupData k (appendRec key _ st.data)).map FileRec.count).sum
        rw [lookupTotal_bumpTotal, lookupData_appendRec]
        by_cases hk : k = key
        · simp only [if_pos hk]
          rw [List.map_append, List.sum_append, ← ha k]
          simp
        · simp only [if_neg hk]
          exact ha k
      · exact keysNodup_bumpTotal key _ st.totals hn
      · have hr1 : 1 ≤ (FileRec.mk name (scanFile lines).count
            (fileFollowingDay lines)).count := hc
        exact recsPos_appendRec key _ hr1 st.data hr
    · rw [if_neg hc]
      exact ⟨ha, hn, hr⟩

theorem goodSt_initTotal (st : St) (k : String) (h : GoodSt st) :
    GoodSt { st with totals := initTotal k st.totals } := by
  obtain ⟨ha, hn, hr⟩ := h
  refine ⟨?_, keysNodup_initTotal k st.totals hn, hr⟩
  intro k'
  show (lookupTotal k' (initTotal k st.totals)).getD 0 = _
  rw [lookupTotal_initTotal]
  by_cases hk : k' = k
  · simp only [if_pos hk, Option.getD_some]
    exact ha k'
  · simp only [if_neg hk]
    exact ha k'

theorem goodSt_foldlFiles (key : String) :
    ∀ (fs : List FileEntry) (st : St), GoodSt st → GoodSt (fs.foldl (stepFile key) st)
  | [], _, h => h
  | f :: fs, st, h => goodSt_foldlFiles key fs _ (goodSt_stepFile key st f h)

theorem goodSt_stepEntry (st : St) (e : WalkEntry) (h : GoodSt st) :
    GoodSt (stepEntry st e) := by
  by_cases hr : e.relPath = "."
  · rw [stepEntry_root st e hr]
    exact h
  · simp only [stepEntry, hr, if_false]
    exact goodSt_foldlFiles e.baseName e.files _ (goodSt_initTotal st e.baseName h)

theorem goodSt_foldlWalk :
    ∀ (w : List WalkEntry) (st : St), GoodSt st → GoodSt (w.foldl stepEntry st)
  | [], _, h => h
  | e :: w, st, h => goodSt_foldlWalk w _ (goodSt_stepEntry st e h)

theorem goodSt_empty : GoodSt ⟨[], []⟩ := by
  refine ⟨?_, by simp [KeysNodup], ?_⟩
  · intro k
    simp [lookupTotal, lookupData]
  · intro p hp
    simp at hp

theorem goodSt_runWalk (w : List WalkEntry) : GoodSt (runWalk w) :=
  goodSt_foldlWalk w ⟨[], []⟩ goodSt_empty

theorem lookupData_cases (k : String) :
    ∀ d : List (String × List FileRec),
      lookupData k d = [] ∨ ∃ p ∈ d, lookupData k d = p.2
  | [] => Or.inl rfl
  | p :: d => by
    by_cases h : p.1 = k
    · right
      exact ⟨p, List.mem_cons_self p d, by simp [lookupData, h]⟩
    · rcases lookupData_cases k d with h0 | ⟨q, hq, he⟩
      · left
        simp [lookupData, h, h0]
      · right
        exact ⟨q, List.mem_cons_of_mem p hq, by simp [lookupData, h, he]⟩

/-! ## Claim theorems (invariant group) -/

/-- C3.  In the final aggregation state of any walk, every subfolder's
total equals the sum of the counts of the file records stored under the
same key (every intermediate state is itself `runWalk` of a truncated
walk, so the invariant holds after each file as well). -/
theorem subfolder_total_eq_sum_of_counts (w : List WalkEntry) :
    ∀ p ∈ (runWalk w).totals,
      p.2 = ((lookupData p.1 (runWalk w).data).map FileRec.count).sum := by
  intro p hp
  obtain ⟨ha, hn, _⟩ := goodSt_runWalk w
  have hl := lookupTotal_of_mem (runWalk w).totals p hn hp
  have hk := ha p.1
  rw [hl, Option.getD_some] at hk
  exact hk

theorem subfolder_total_eq_sum_of_counts_witness :
    ("A", 2) ∈ (runWalk [⟨"A", "A", [⟨"x.txt", some ["ab 1 cd".data]⟩]⟩]).totals
      ∧ (2 : Nat) = ((lookupData "A"
          (runWalk [⟨"A", "A", [⟨"x.txt", some ["ab 1 cd".data]⟩]⟩]).data).map
            FileRec.count).sum :=
  ⟨by decide,
    subfolder_total_eq_sum_of_counts [⟨"A", "A", [⟨"x.txt", some ["ab 1 cd".data]⟩]⟩]
      ("A", 2) (by decide)⟩

/-- C10.  In the final state of any walk, a subfolder's total is 0
exactly when it has no recorded file, because every stored record has
count at least 1; hence a non-zero-total header is followed by at least
one file row and a zero-total header by none. -/
theorem zero_total_iff_no_files (w : List WalkEntry) :
    ∀ p ∈ (runWalk w).totals,
      (p.2 = 0 ↔ lookupData p.1 (runWalk w).data = []) := by
  intro p hp
  obtain ⟨ha, hn, hr⟩ := goodSt_runWalk w
  have hl := lookupTotal_of_mem (runWalk w).totals p hn hp
  have hsum := ha p.1
  rw [hl, Option.getD_some] at hsum
  constructor
  · intro h0
    by_contra hne
    rcases lookupData_cases p.1 (runWalk w).data with he | ⟨q, hq, he⟩
    · exact hne he
    · cases hq2 : lookupData p.1 (runWalk w).data with
      | nil => exact hne hq2
      | cons r rs =>
        have hrq : r ∈ q.2 := by
          rw [← he, hq2]
          exact List.mem_cons_self r rs
        have hr1 : 1 ≤ r.count := hr q hq r hrq
        rw [hq2] at hsum
        simp only [List.map_cons, List.sum_cons] at hsum
        omega
  · intro he
    rw [he] at hsum
    simpa using hsum

theorem zero_total_iff_no_files_witness :
    ("E", 0) ∈ (runWalk [⟨"E", "E", []⟩]).totals
      ∧ ((0 : Nat) = 0 ↔ lookupData "E" (runWalk [⟨"E", "E", []⟩]).data = []) :=
  ⟨by decide, zero_total_iff_no_files [⟨"E", "E", []⟩] ("E", 0) (by decide)⟩

/-! ## Claim theorems (ordering group) -/

/-- C4.  The ordered subfolder sequence of any run decomposes as: first
exactly the zero-total subfolders in their encounter order (the totals
dictionary is in first-encounter order and `filter` preserves it), then
a block of non-zero-total subfolders in non-decreasing order of total;
within the non-zero block, for every value `n` the subfolders of total
`n` keep their encounter order (stability of the sort). -/
theorem report_subfolder_order (w : List WalkEntry) :
    ∃ ns, orderSubfolders (runWalk w).totals
        = ((runWalk w).totals.filter fun p => p.2 == 0) ++ ns
      ∧ ns.Pairwise (fun a b => a.2 ≤ b.2)
      ∧ (∀ p ∈ ns, p.2 ≠ 0)
      ∧ ∀ n : Nat, ns.filter (fun p => p.2 == n)
          = ((runWalk w).totals.filter fun p => p.2 != 0).filter fun p => p.2 == n := by
  refine ⟨sortTotals ((runWalk w).totals.filter fun p => p.2 != 0), rfl, ?_, ?_, ?_⟩
  · exact (pairwise_sortBy totalLe totalLe_total totalLe_trans _).imp
      (fun h => by simpa [totalLe] using h)
  · intro p hp
    have hp' := (mem_sortBy totalLe _ p).mp hp
    have := (List.mem_filter.mp hp').2
    simpa using this
  · intro n
    refine filter_sortBy totalLe _ ?_ _
    intro a b ha hb
    have ha' : a.2 = n := by simpa using ha
    have hb' : b.2 = n := by simpa using hb
    simp [totalLe, ha', hb']

/-- C5.  In every run and every subfolder, the file rows the report
emits (the sorted record list of that subfolder) are pairwise in
non-decreasing lexicographic order of file name, with respect to the
standard code-point order on strings. -/
theorem report_files_sorted_by_name (w : List WalkEntry) (k : String) :
    (sortFiles (lookupData k (runWalk w).data)).Pairwise
      (fun a b : FileRec => a.file ≤ b.file) := by
  have h := pairwise_sortBy fileLe fileLe_total fileLe_trans
    (lookupData k (runWalk w).data)
  exact h.imp (fun hab => (fileLe_iff_le _ _).mp hab)

theorem root_files_never_scanned_witness :
    (WalkEntry.relPath ⟨".", "root", [⟨"r.txt", some ["root 9".data]⟩]⟩ = ".")
      ∧ runWalk [⟨".", "root", [⟨"r.txt", some ["root 9".data]⟩]⟩, ⟨"A", "A", []⟩]
        = runWalk [⟨"A", "A", []⟩] :=
  ⟨rfl,
    (root_files_never_scanned [] [⟨"A", "A", []⟩]
      ⟨".", "root", [⟨"r.txt", some ["root 9".data]⟩]⟩ rfl).2.1⟩

end Climate

/-! ## Concrete validation

The tokenizers and the serialisation are checked on concrete inputs
against the observed CPython behaviour (`re.findall` outputs for both
patterns, including the backtracking corner cases, and the exact text
the `csv` module writes). -/

section Validation
open Climate
example : findNumbers "Temp 5 and 6 rising".data = ["5", "6"] := by decide
example : findNumbers "a 5.x".data = ["5."] := by decide
example : findNumbers "5.67x".data = ["5."] := by decide
example : findNumbers "1.23a".data = ["1."] := by decide
example : findNumbers ".5".data = ["5"] := by decide
example : findNumbers "5.".data = ["5"] := by decide
example : findNumbers "5..6".data = ["5", "6"] := by decide
example : findNumbers "1_2".data = [] := by decide
example : findNumbers "5.,".data = ["5"] := by decide
example : findNumbers "1.2.3".data = ["1.2", "3"] := by decide
example : findNumbers "x 12.5 y 7".data = ["12.5", "7"] := by decide
example : findNumbers "abc".data = [] := by decide
example : findNumbers "".data = [] := by decide
example : findNumbers "5 .6".data = ["5", "6"] := by decide
example : findNumbers "a5.b".data = [] := by decide
example : findNumbers "_5".data = [] := by decide
example : findNumbers "5_".data = [] := by decide
example : findNumbers "3.14 and 2.71".data = ["3.14", "2.71"] := by decide
example : findNumbers "0.0.0.0".data = ["0.0", "0.0"] := by decide
example : findNumbers "9.a".data = ["9."] := by decide
example : findNumbers "12.".data = ["12"] := by decide
example : findNumbers ".12.".data = ["12"] := by decide
example : findNumbers "v1.2rc".data = [] := by decide
example : findNumbers "10..".data = ["10"] := by decide
example : findNumbers "a.5".data = ["5"] := by decide
example : findNumbers "..7..".data = ["7"] := by decide
example : findNumbers "7.x8".data = ["7."] := by decide
example : findNumbers "00.00".data = ["00.00"] := by decide
example : findNumbers "1a2.3b4".data = [] := by decide
example : specPatternTokens "a 5.x".data = ["5"] := by decide
example : specPatternTokens "5.67x".data = ["5"] := by decide
example : specPatternTokens "1.23a".data = ["1"] := by decide
example : specPatternTokens "1.2.3".data = ["1.2", "3"] := by decide
example : specPatternTokens "9.a".data = ["9"] := by decide
example : specPatternTokens "7.x8".data = ["7"] := by decide
example : specPatternTokens "0.0.0.0".data = ["0.0", "0.0"] := by decide
example : specPatternTokens "12.".data = ["12"] := by decide
example : countAlpha "Temp 5 and 6 rising".data = 3 := by decide
example : hasAlpha "42".data = false := by decide
example : fileFollowingDay ["Temp 5 and 6 rising".data, "42".data] = "5; 6" := by decide

example : analyzeCSV exampleWalk =
    "Subfolder Name,Subfolder Total Alphabetical Count,File Name,File Alphabetical Count,Following day\r\nA,3,,,\r\n,,x.txt,3,5; 6\r\n" := by
  decide

example : csvField "a,b" = "\"a,b\"" := by decide

example : csvField "c\"d" = "\"c\"\"d\"" := by decide
end Validation
